import Mathlib

/-!
Verification of the inventory search engine of the mock e-commerce
application (src/search.py and src/main.py).

Strings are modelled as lists of characters.  Python's `str.split()`
(no separator: split on runs of whitespace, discarding empty fragments)
is modelled by `pySplit`.  The compiled pattern
`re.compile(re.escape(term), re.IGNORECASE)` matches an item exactly
when the escaped, hence literal, term occurs in the item under
case-insensitive comparison; this is modelled by `termMatches`, which
lowercases both sides and tests substring containment.
-/

namespace EcommerceSearch

/-- The whitespace characters recognised by Python's str.split():
space, tab, newline, carriage return, vertical tab, form feed. -/
def isPySpace (c : Char) : Bool :=
  c = ' ' || c = '\t' || c = '\n' || c = '\r' || c = '\x0b' || c = '\x0c'

/-- Worker for `pySplit`: `acc` holds the characters of the token
currently being read, in reverse order. -/
def pySplitGo : List Char → List Char → List (List Char)
  | [], acc => if acc.isEmpty then [] else [acc.reverse]
  | c :: rest, acc =>
      if isPySpace c then
        if acc.isEmpty then pySplitGo rest [] else acc.reverse :: pySplitGo rest []
      else pySplitGo rest (c :: acc)

/-- Python's `query.split()` (src/search.py line 32): the maximal runs
of non-whitespace characters of the query, in order. -/
def pySplit (s : List Char) : List (List Char) := pySplitGo s []

/-- Character-wise lowercasing, modelling the case folding performed by
`re.IGNORECASE`. -/
def lowerStr (s : List Char) : List Char := s.map Char.toLower

/-- `re.compile(re.escape(term), re.IGNORECASE).search(item)` succeeds
(src/search.py lines 35-38 and 44): because the term is escaped it is
matched as literal text, so the test is case-insensitive substring
containment. -/
def termMatches (term item : List Char) : Bool :=
  decide (lowerStr term <:+: lowerStr item)

/-- `search_inventory` of src/search.py (lines 9-48): split the query
into terms, keep the inventory items matched by every term, in order. -/
def search_inventory (query : List Char) (inventory : List (List Char)) :
    List (List Char) :=
  let search_terms := pySplit query
  inventory.filter (fun item => search_terms.all (fun term => termMatches term item))

/-- `search_inventory` of src/main.py (lines 138-151): identical body,
but the candidates are the keys of a name-to-price mapping, iterated in
order.  The mapping is modelled as an association list whose order is
the dictionary's iteration order. -/
def search_inventory_main (query : List Char) (inventory : List (List Char × Int)) :
    List (List Char) :=
  let search_terms := pySplit query
  let keys := inventory.map Prod.fst
  keys.filter (fun item => search_terms.all (fun term => termMatches term item))

/-! ### Lemmas about `pySplit` -/

theorem pySplitGo_all_space {s : List Char} (h : ∀ c ∈ s, isPySpace c = true) :
    ∀ acc : List Char, pySplitGo s acc = if acc.isEmpty then [] else [acc.reverse] := by
  induction s with
  | nil => intro acc; rfl
  | cons c rest ih =>
      intro acc
      have hc : isPySpace c = true := h c (List.mem_cons_self c rest)
      have hrest : ∀ d ∈ rest, isPySpace d = true := fun d hd => h d (List.mem_cons_of_mem c hd)
      by_cases hacc : acc.isEmpty
      · simp [pySplitGo, hc, hacc, ih hrest]
      · simp [pySplitGo, hc, hacc, ih hrest]

theorem pySplit_all_space {s : List Char} (h : ∀ c ∈ s, isPySpace c = true) :
    pySplit s = [] := by
  simpa [pySplit] using pySplitGo_all_space h []

theorem pySplitGo_append_space {sp : Char} (hsp : isPySpace sp = true)
    (a b : List Char) :
    ∀ acc : List Char, pySplitGo (a ++ sp :: b) acc = pySplitGo a acc ++ pySplitGo b [] := by
  induction a with
  | nil =>
      intro acc
      by_cases hacc : acc.isEmpty
      · simp [pySplitGo, hsp, hacc]
      · simp [pySplitGo, hsp, hacc]
  | cons c rest ih =>
      intro acc
      by_cases hc : isPySpace c
      · by_cases hacc : acc.isEmpty
        · simp [pySplitGo, hc, hacc, ih]
        · simp [pySplitGo, hc, hacc, ih]
      · simp [pySplitGo, hc, ih]

theorem pySplit_append_space {sp : Char} (hsp : isPySpace sp = true)
    (a b : List Char) :
    pySplit (a ++ sp :: b) = pySplit a ++ pySplit b :=
  pySplitGo_append_space hsp a b []

theorem pySplitGo_no_space {t : List Char} (h : ∀ c ∈ t, isPySpace c = false) :
    ∀ acc : List Char, pySplitGo t acc = pySplitGo [] (t.reverse ++ acc) := by
  induction t with
  | nil => intro acc; rfl
  | cons c rest ih =>
      intro acc
      have hc : isPySpace c = false := h c (List.mem_cons_self c rest)
      have hrest : ∀ d ∈ rest, isPySpace d = false := fun d hd => h d (List.mem_cons_of_mem c hd)
      simp only [pySplitGo, hc, Bool.false_eq_true, if_false, ih hrest,
        List.reverse_cons, List.append_assoc, List.singleton_append]

theorem pySplit_single_token {t : List Char} (hne : t ≠ [])
    (h : ∀ c ∈ t, isPySpace c = false) : pySplit t = [t] := by
  have := pySplitGo_no_space h []
  simp only [pySplit, this, List.append_nil, pySplitGo]
  have : (t.reverse).isEmpty = false := by
    cases t with
    | nil => exact absurd rfl hne
    | cons c rest => simp [List.isEmpty_iff]
  simp [this]

/-! ### Claims -/

/-- C1: for every query q and candidate list C, a candidate c of C is in
the result iff every whitespace-delimited token of q occurs as a literal
substring of c under case-insensitive comparison (conjunction over all
tokens). -/
theorem search_inventory_mem_iff (q c : List Char) (C : List (List Char))
    (hc : c ∈ C) :
    c ∈ search_inventory q C ↔ ∀ t ∈ pySplit q, lowerStr t <:+: lowerStr c := by
  simp [search_inventory, List.mem_filter, hc, List.all_eq_true, termMatches]

theorem search_inventory_mem_iff_witness :
    "Apple Watch Series 8".data ∈
        ["Apple Watch Series 8".data, "Apple iPhone 14".data] ∧
      ("Apple Watch Series 8".data ∈
          search_inventory "Apple Watch".data
            ["Apple Watch Series 8".data, "Apple iPhone 14".data] ↔
        ∀ t ∈ pySplit "Apple Watch".data,
          lowerStr t <:+: lowerStr "Apple Watch Series 8".data) :=
  ⟨by decide,
    search_inventory_mem_iff "Apple Watch".data "Apple Watch Series 8".data
      ["Apple Watch Series 8".data, "Apple iPhone 14".data] (by decide)⟩

/-- C2: the result is a subsequence of the input inventory: every element
of the result occurs in the inventory and the relative order is kept. -/
theorem search_inventory_sublist (q : List Char) (C : List (List Char)) :
    List.Sublist (search_inventory q C) C :=
  List.filter_sublist C

/-- C3: a query that is empty or all whitespace tokenizes to zero terms
and the whole inventory is returned unchanged. -/
theorem search_inventory_trivial_query (q : List Char) (C : List (List Char))
    (h : ∀ c ∈ q, isPySpace c = true) :
    search_inventory q C = C := by
  simp [search_inventory, pySplit_all_space h]

theorem search_inventory_trivial_query_witness :
    (∀ c ∈ "".data, isPySpace c = true) ∧
      search_inventory "".data ["Apple Watch".data, "Samsung TV".data] =
        ["Apple Watch".data, "Samsung TV".data] :=
  ⟨by decide,
    search_inventory_trivial_query "".data
      ["Apple Watch".data, "Samsung TV".data] (by decide)⟩

/-- C4: pattern metacharacters in the query are matched literally: the
query with parentheses keeps exactly the candidate containing the literal
parenthesised text. -/
theorem search_inventory_literal_specials :
    search_inventory "iPhone (2022)".data
        ["Refurb iPhone (2022) 128GB".data, "iPhone 13".data] =
      ["Refurb iPhone (2022) 128GB".data] := by decide

/-- C5: the search is case-insensitive in the query: the all-caps query
gives the same result as the lowercase one on every inventory. -/
theorem search_inventory_case_insensitive (C : List (List Char)) :
    search_inventory "APPLE".data C = search_inventory "apple".data C := by
  unfold search_inventory
  apply List.filter_congr
  intro item _
  have h1 : pySplit "APPLE".data = ["APPLE".data] := by decide
  have h2 : pySplit "apple".data = ["apple".data] := by decide
  have h3 : lowerStr "APPLE".data = lowerStr "apple".data := by decide
  simp [h1, h2, termMatches, h3]

/-- C6: searching an empty inventory returns the empty list, whatever the
query is. -/
theorem search_inventory_empty_inventory (q : List Char) :
    search_inventory q [] = [] := rfl

/-- C7: the search is deterministic: two calls with the same query and
the same candidate list return the same result (the embedding is pure, so
the candidate list is never mutated). -/
theorem search_inventory_deterministic (q₁ q₂ : List Char)
    (C₁ C₂ : List (List Char)) (hq : q₁ = q₂) (hC : C₁ = C₂) :
    search_inventory q₁ C₁ = search_inventory q₂ C₂ := by
  rw [hq, hC]

theorem search_inventory_deterministic_witness :
    "apple".data = "apple".data ∧ ["Apple Watch".data] = ["Apple Watch".data] ∧
      search_inventory "apple".data ["Apple Watch".data] =
        search_inventory "apple".data ["Apple Watch".data] :=
  ⟨rfl, rfl,
    search_inventory_deterministic "apple".data "apple".data
      ["Apple Watch".data] ["Apple Watch".data] rfl rfl⟩

/-- C8: the copy of the search function in src/main.py agrees with the one
in src/search.py applied to the keys of the mapping in iteration order. -/
theorem search_inventory_main_equiv (q : List Char)
    (d : List (List Char × Int)) :
    search_inventory_main q d = search_inventory q (d.map Prod.fst) := rfl

/-- C9: appending one more non-empty whitespace-free term to the query,
separated by a space, can only narrow the result: the new result is a
subsequence of the old one. -/
theorem search_inventory_extra_term_narrows (q t : List Char)
    (C : List (List Char)) (hne : t ≠ []) (h : ∀ c ∈ t, isPySpace c = false) :
    List.Sublist (search_inventory (q ++ " ".data ++ t) C)
      (search_inventory q C) := by
  unfold search_inventory
  have hsplit : pySplit (q ++ " ".data ++ t) = pySplit q ++ [t] := by
    have : q ++ " ".data ++ t = q ++ ' ' :: t := by simp
    rw [this, pySplit_append_space (by decide) q t, pySplit_single_token hne h]
  rw [hsplit]
  apply List.monotone_filter_right
  intro item hitem
  simp only [List.all_append, Bool.and_eq_true] at hitem
  exact hitem.1

theorem search_inventory_extra_term_narrows_witness :
    "watch".data ≠ [] ∧ (∀ c ∈ "watch".data, isPySpace c = false) ∧
      List.Sublist
        (search_inventory ("apple".data ++ " ".data ++ "watch".data)
          ["Apple Watch Series 8".data, "Apple iPhone 14".data])
        (search_inventory "apple".data
          ["Apple Watch Series 8".data, "Apple iPhone 14".data]) :=
  ⟨by decide, by decide,
    search_inventory_extra_term_narrows "apple".data "watch".data
      ["Apple Watch Series 8".data, "Apple iPhone 14".data]
      (by decide) (by decide)⟩

/-- C10: the search distributes over concatenation of inventories: each
candidate is accepted independently of the others and duplicates are not
removed. -/
theorem search_inventory_append (q : List Char) (C₁ C₂ : List (List Char)) :
    search_inventory q (C₁ ++ C₂) =
      search_inventory q C₁ ++ search_inventory q C₂ := by
  simp [search_inventory, List.filter_append]

end EcommerceSearch
